import Mathlib

/-!
Verification of the portfolio-holdings dashboard pipeline
(`src/app.py` and `src/Dashboard-Summary-canvas.py`).

The two scripts implement the same pipeline: load a holdings CSV, coerce the
three numeric columns, enrich rows with localized display names, compute the
holding-period return (HPR), filter by four dimensions, aggregate by a chosen
grouping dimension, and format/highlight the results.

Numeric cells are modelled as `Option ℚ` (`none` is pandas NaN, a missing
value).  The vectorised column arithmetic of pandas/numpy is modelled by the
extended-value type `XVal`, which distinguishes NaN, signed infinity and
finite rationals, because `Series` division by zero produces signed infinity
(not NaN and not an exception) and `fillna` replaces only NaN.  Rounding of a
finite value to two decimals is modelled exactly on ℚ.
-/

/-- Extended value produced by pandas column arithmetic: NaN, a signed
infinity (`inf true` is +∞), or a finite rational. -/
inductive XVal where
  | nan : XVal
  | inf : Bool → XVal
  | num : ℚ → XVal
deriving DecidableEq

/-- Subtraction on extended values, following IEEE-754 semantics as
implemented by numpy: NaN propagates, ∞ − ∞ = NaN. -/
def XVal.sub : XVal → XVal → XVal
  | nan, _ => nan
  | _, nan => nan
  | inf a, inf b => if a = b then nan else inf a
  | inf a, num _ => inf a
  | num _, inf b => inf (!b)
  | num a, num b => num (a - b)

/-- Division on extended values, following IEEE-754 semantics as implemented
by numpy: a nonzero finite value divided by zero is a signed infinity, 0/0 is
NaN, NaN propagates.  Division by zero is never an error. -/
def XVal.div : XVal → XVal → XVal
  | nan, _ => nan
  | _, nan => nan
  | inf _, inf _ => nan
  | inf a, num b => if b < 0 then inf (!a) else inf a
  | num _, inf _ => num 0
  | num a, num b =>
      if b = 0 then (if a = 0 then nan else inf (decide (0 < a)))
      else num (a / b)

/-- Multiplication on extended values, following IEEE-754 semantics as
implemented by numpy: ∞ · 0 = NaN, otherwise signs multiply. -/
def XVal.mul : XVal → XVal → XVal
  | nan, _ => nan
  | _, nan => nan
  | inf a, inf b => inf (a == b)
  | inf a, num b => if b = 0 then nan else inf (a == decide (0 < b))
  | num a, inf b => if a = 0 then nan else inf (b == decide (0 < a))
  | num a, num b => num (a * b)

/-- Exact rounding of a rational to two decimal places, modelling
`Series.round(2)` on a finite value. -/
def roundTo2 (q : ℚ) : ℚ := (⌊100 * q + 1/2⌋ : ℚ) / 100

/-- `Series.round(2)`: rounds finite entries, leaves NaN and ±∞ unchanged. -/
def XVal.round2 : XVal → XVal
  | nan => nan
  | inf a => inf a
  | num q => num (roundTo2 q)

/-- `Series.fillna(d)`: replaces NaN by `d`.  Note that it does NOT replace
an infinity — this is the behaviour of pandas `fillna`. -/
def XVal.fillna (d : ℚ) : XVal → XVal
  | nan => num d
  | inf a => inf a
  | num q => num q

/-- Injects a numeric cell (`none` = missing / NaN) into extended values. -/
def toX : Option ℚ → XVal
  | none => XVal.nan
  | some q => XVal.num q

/-- Embeds the per-row HPR computation
`((df[Value At Market Price] - df[Value At Cost]) / df[Value At Cost] * 100).round(2)`
followed by `.fillna(0)`
(`src/app.py` lines 97–98, `src/Dashboard-Summary-canvas.py` lines 123–124). -/
def rowHPR (cost market : Option ℚ) : XVal :=
  ((((toX market).sub (toX cost)).div (toX cost)).mul (XVal.num 100)).round2.fillna 0

/-! ### Localization store (`src/app.py` lines 38–59) -/

/-- A mapping from language tag to display string: one value of the JSON
mapping objects (e.g. the entry of `member_mapping` at one member code). -/
abbrev LangMap := List (String × String)

/-- A loaded JSON mapping table: domain code to language map, in insertion
order.  An absent or malformed file loads as the empty table. -/
abbrev Mapping := List (String × LangMap)

/-- Python `dict.get k` on a mapping table: the first entry with the given
key, if any. -/
def dictGet (m : Mapping) (k : String) : Option LangMap :=
  (m.find? (fun p => p.1 == k)).map (fun p => p.2)

/-- Python `dict.get k` on a language map. -/
def langGet (e : LangMap) (lang : String) : Option String :=
  (e.find? (fun p => p.1 == lang)).map (fun p => p.2)

/-- Embeds `get_member_name` (`src/app.py` lines 46–48): the member mapping
looked up at the member code (default: empty), then at the language tag
(default: the member code itself). -/
def get_member_name (member_mapping : Mapping) (member_code lang : String) : String :=
  (langGet ((dictGet member_mapping member_code).getD []) lang).getD member_code

/-- Embeds `get_stock_name` (`src/app.py` lines 57–59): the stock mapping
looked up at the ISIN code (default: empty), then at the language tag
(default: the ISIN code itself). -/
def get_stock_name (stock_mapping : Mapping) (isin_code lang : String) : String :=
  (langGet ((dictGet stock_mapping isin_code).getD []) lang).getD isin_code

/-- Embeds `get_sector_name` (`src/app.py` lines 50–55).  The source scans
`sector_mapping.items()` in insertion order and indexes each scanned entry
directly at the `en` key, which raises `KeyError` when the entry has no `en`
value, so the embedding is fallible: `none` models that escaping `KeyError`.
On success it returns the value for `lang` of the first entry whose `en`
value equals the given canonical English name, defaulting to the canonical
name, or the canonical name unchanged when no entry matches. -/
def get_sector_name (sector_mapping : Mapping) (sector_name_en lang : String) :
    Option String :=
  match sector_mapping with
  | [] => some sector_name_en
  | p :: rest =>
      match langGet p.2 "en" with
      | none => none
      | some en =>
          if en == sector_name_en
            then some ((langGet p.2 lang).getD sector_name_en)
            else get_sector_name rest sector_name_en lang

/-! ### Data loader / normalizer (`src/app.py` lines 84–88) -/

/-- Folds a list of decimal digit characters into a natural number. -/
def digitsToNat : List Char → Nat → Nat
  | [], acc => acc
  | c :: cs, acc => digitsToNat cs (10 * acc + (c.toNat - 48))

/-- Parses an unsigned decimal literal: digits, optionally followed by a
decimal point and further digits, with at least one digit present. -/
def parseNumCore (cs : List Char) : Option ℚ :=
  let intPart := cs.takeWhile (fun c => c.isDigit)
  let rest := cs.dropWhile (fun c => c.isDigit)
  match rest with
  | [] =>
      if intPart.isEmpty then none
      else some (digitsToNat intPart 0 : ℚ)
  | '.' :: fracPart =>
      if fracPart.all (fun c => c.isDigit) && !(intPart.isEmpty && fracPart.isEmpty) then
        some ((digitsToNat intPart 0 : ℚ) +
          (digitsToNat fracPart 0 : ℚ) / (10 ^ fracPart.length : ℚ))
      else none
  | _ => none

/-- Models the numeric parsing performed by `pandas.to_numeric` (library
code, not part of this repository): parses an optionally signed decimal
literal, returning `none` on any malformed input. -/
def parseNumeric (s : String) : Option ℚ :=
  match s.toList with
  | '-' :: rest => (parseNumCore rest).map (fun q => -q)
  | '+' :: rest => parseNumCore rest
  | cs => parseNumCore cs

/-- Embeds `pd.to_numeric(col, errors=coerce)` on a single cell
(`src/app.py` lines 86–88): a missing cell stays missing, a malformed cell
becomes missing (NaN), a well-formed cell becomes its numeric value.  It is a
total function — coercion never raises. -/
def to_numeric_coerce (cell : Option String) : Option ℚ :=
  cell.bind parseNumeric

/-- One raw row of the holdings CSV as loaded by `pd.read_csv`: every cell is
either text or missing. -/
structure RawRow where
  memberCode : Option String
  isinCode : Option String
  sectorName : Option String
  broker : Option String
  portfolio : Option String
  qty : Option String
  valueAtCost : Option String
  valueAtMarket : Option String
deriving DecidableEq

/-- A normalized holding: the three numeric columns have been coerced
(`src/app.py` lines 86–88); all other cells pass through unchanged. -/
structure Holding where
  memberCode : Option String
  isinCode : Option String
  sectorName : Option String
  broker : Option String
  portfolio : Option String
  qty : Option ℚ
  valueAtCost : Option ℚ
  valueAtMarket : Option ℚ
deriving DecidableEq

/-- Embeds the data-cleaning step on one row (`src/app.py` lines 86–88):
`pd.to_numeric(col, errors=coerce)` applied to the `Value At Cost`,
`Value At Market Price` and `Qty` columns. -/
def cleanRow (r : RawRow) : Holding :=
  { memberCode := r.memberCode
    isinCode := r.isinCode
    sectorName := r.sectorName
    broker := r.broker
    portfolio := r.portfolio
    qty := to_numeric_coerce r.qty
    valueAtCost := to_numeric_coerce r.valueAtCost
    valueAtMarket := to_numeric_coerce r.valueAtMarket }

/-- The cleaning step over the whole table: row-by-row, keeping every row. -/
def cleanRows (rows : List RawRow) : List Holding :=
  rows.map cleanRow

/-! ### Enrichment and metric stage (`src/app.py` lines 91–98) -/

/-- An enriched holding: a `Holding` plus the localized display-name columns
and the computed HPR column (`src/app.py` lines 91–98). -/
structure EnrichedHolding where
  memberName : Option String
  stockDisplayName : Option String
  sectorDisplayName : Option String
  broker : Option String
  portfolio : Option String
  qty : Option ℚ
  valueAtCost : Option ℚ
  valueAtMarket : Option ℚ
  hpr : XVal
deriving DecidableEq

/-- The sector-column `.apply` on one cell.  A present cell goes through
`get_sector_name` (fallible).  pandas applies the lambda to a NaN cell as
well: the scan then compares every entry value at `en` against NaN (all
false) and returns NaN, but still raises `KeyError` at the first entry
without an `en` key, so a missing cell succeeds (staying missing) exactly
when every entry carries an `en` value. -/
def sectorCellLookup (sector_mapping : Mapping) (lang : String) :
    Option String → Option (Option String)
  | some s => (get_sector_name sector_mapping s lang).map some
  | none =>
      if sector_mapping.all (fun p => (langGet p.2 "en").isSome)
        then some none else none

/-- Embeds the enrichment of one row (`src/app.py` lines 91–98): the three
`.apply` calls producing display names (a missing code stays missing for the
member and stock lookups, since `dict.get` on a NaN key falls through to the
NaN default) and the vectorised HPR computation.  Enrichment is fallible
because the sector lookup is: `none` models a `KeyError` escaping the
pipeline. -/
def enrichRow (member_mapping sector_mapping stock_mapping : Mapping)
    (lang : String) (h : Holding) : Option EnrichedHolding :=
  match sectorCellLookup sector_mapping lang h.sectorName with
  | none => none
  | some sd =>
      some
        { memberName := h.memberCode.map (fun c => get_member_name member_mapping c lang)
          stockDisplayName := h.isinCode.map (fun c => get_stock_name stock_mapping c lang)
          sectorDisplayName := sd
          broker := h.broker
          portfolio := h.portfolio
          qty := h.qty
          valueAtCost := h.valueAtCost
          valueAtMarket := h.valueAtMarket
          hpr := rowHPR h.valueAtCost h.valueAtMarket }

/-! ### Filter engine (`src/app.py` lines 113–122) -/

/-- The four sidebar dimension choices.  The literal string `All` is the
sentinel meaning "do not filter on this dimension", exactly as in the
source's comparisons against the string `All`. -/
structure FilterSelection where
  portfolio : String
  member : String
  sector : String
  broker : String
deriving DecidableEq

/-- Embeds the filter block (`src/app.py` lines 113–122): four successive
conditional equality filters over the enriched rows.  A pandas comparison of
a missing cell (NaN) with a string is `False`, which the `Option` equality
models: `none == some v` is `false`. -/
def applyFilters (sel : FilterSelection) (df : List EnrichedHolding) : List EnrichedHolding :=
  let df1 := if sel.portfolio ≠ "All"
    then df.filter (fun r => r.portfolio == some sel.portfolio) else df
  let df2 := if sel.member ≠ "All"
    then df1.filter (fun r => r.memberName == some sel.member) else df1
  let df3 := if sel.sector ≠ "All"
    then df2.filter (fun r => r.sectorDisplayName == some sel.sector) else df2
  if sel.broker ≠ "All"
    then df3.filter (fun r => r.broker == some sel.broker) else df3

/-- The conjunction of the four dimension predicates: a row passes when, for
every dimension whose selection is not `All`, the row's field equals the
selected value. -/
def rowMatches (sel : FilterSelection) (r : EnrichedHolding) : Bool :=
  (sel.portfolio == "All" || r.portfolio == some sel.portfolio) &&
  ((sel.member == "All" || r.memberName == some sel.member) &&
  ((sel.sector == "All" || r.sectorDisplayName == some sel.sector) &&
  (sel.broker == "All" || r.broker == some sel.broker)))

/-! ### Aggregation engine (`src/app.py` lines 128–155, 189) -/

/-- `Series.sum()` over the `Value At Cost` column: pandas sums with
`skipna=True`, so a missing value contributes nothing and an all-missing or
empty column sums to `0`. -/
def sumCost (rows : List EnrichedHolding) : ℚ :=
  (rows.map (fun r => r.valueAtCost.getD 0)).sum

/-- `Series.sum()` over the `Value At Market Price` column, skipping missing
values. -/
def sumMarket (rows : List EnrichedHolding) : ℚ :=
  (rows.map (fun r => r.valueAtMarket.getD 0)).sum

/-- Embeds the group-level HPR computation (`src/app.py` lines 154–155):
`((Current_Value - Investment) / Investment * 100).round(2)` followed by
`.fillna(0)`, applied to the summed group values. -/
def groupHPR (investment currentValue : ℚ) : XVal :=
  (((XVal.num (currentValue - investment)).div (XVal.num investment)).mul
    (XVal.num 100)).round2.fillna 0

/-- Embeds the total-level HPR (`src/app.py` line 130):
`((total_current_value - total_investment) / total_investment * 100).round(2)
if total_investment != 0 else 0`.  The explicit guard makes the result a
plain finite number; division by zero cannot occur. -/
def totalHPR (rows : List EnrichedHolding) : ℚ :=
  let total_investment := sumCost rows
  let total_current_value := sumMarket rows
  if total_investment ≠ 0
    then roundTo2 ((total_current_value - total_investment) / total_investment * 100)
    else 0

/-- One row of the aggregate (summary) table: grouping-key value, summed
investment, summed current value, derived group HPR. -/
structure AggregateRow where
  key : String
  investment : ℚ
  currentValue : ℚ
  hpr : XVal
deriving DecidableEq

/-- Embeds `filtered_df.groupby(group_by_column).agg(...)` plus the group
HPR computation (`src/app.py` lines 149–155).  `groupby` excludes rows whose
key is NaN (pandas default `dropna=True`), so the group keys are the distinct
non-missing values of the key column; the output order is modelled up to
reordering (the spec leaves row order unspecified). -/
def summaryTable (key : EnrichedHolding → Option String)
    (rows : List EnrichedHolding) : List AggregateRow :=
  ((rows.filterMap key).dedup).map (fun k =>
    let grp := rows.filter (fun r => key r == some k)
    { key := k
      investment := sumCost grp
      currentValue := sumMarket grp
      hpr := groupHPR (sumCost grp) (sumMarket grp) })

/-! ### Presentation formatter (`src/app.py` lines 163–167,
`src/Dashboard-Summary-canvas.py` lines 202–206) -/

/-- Embeds `highlight_hpr` of `src/app.py` (lines 163–167) as it is invoked
by `summary_table.style.apply(highlight_hpr, subset=[HPR])`: the argument
`s` is the whole HPR column (a `Series` of formatted strings), never a
`str`, so the `isinstance(s, str)` test is false and the function returns
one empty style per row, flagging nothing. -/
def highlight_hpr_app (s : List String) : List String :=
  s.map (fun _ => "")

/-- Models the percent-sign stripping `val.replace` with pattern `%` and
empty replacement: for the single-character pattern, Python `str.replace`
deletes every `%` character. -/
def removePercent (s : String) : String :=
  String.mk (s.toList.filter (fun c => !(c == '%')))

/-- Embeds `highlight_hpr` of `src/Dashboard-Summary-canvas.py` (lines
202–206): element-wise over the formatted column, the style is the light-red
background exactly when the value parsed back from the formatted string
(percent sign stripped) is strictly negative.  Every element of the column
is a string, so the `isinstance(val, str)` test is true; a string Python
`float` could not parse would raise there and is mapped to the empty style
here (the case cannot arise for two-decimal formatted percent cells). -/
def highlight_hpr_canvas (s : List String) : List String :=
  s.map (fun val =>
    match parseNumeric (removePercent val) with
    | some q => if q < 0 then "background-color: #ffe6e6" else ""
    | none => "")

/-! ### Concrete data used by witnesses and counterexamples -/

/-- An ordinary holding with every field present (Broker `B1`). -/
def sampleRow : EnrichedHolding :=
  { memberName := some "Alice"
    stockDisplayName := some "Stock1"
    sectorDisplayName := some "Tech"
    broker := some "B1"
    portfolio := some "P1"
    qty := some 10
    valueAtCost := some 1000
    valueAtMarket := some 1200
    hpr := rowHPR (some 1000) (some 1200) }

/-- A holding whose broker cell is missing (NaN). -/
def missingBrokerRow : EnrichedHolding :=
  { memberName := some "Bob"
    stockDisplayName := some "Stock2"
    sectorDisplayName := some "Pharma"
    broker := none
    portfolio := some "P1"
    qty := some 5
    valueAtCost := some 100
    valueAtMarket := some 200
    hpr := rowHPR (some 100) (some 200) }

/-- A holding with zero cost and positive market value (Broker `B1`). -/
def zeroCostRow : EnrichedHolding :=
  { memberName := some "Alice"
    stockDisplayName := some "Stock1"
    sectorDisplayName := some "Tech"
    broker := some "B1"
    portfolio := some "P1"
    qty := some 1
    valueAtCost := some 0
    valueAtMarket := some 500
    hpr := rowHPR (some 0) (some 500) }

/-- A raw row whose quantity cell is the malformed text `abc`. -/
def malformedRow : RawRow :=
  { memberCode := some "M001"
    isinCode := some "IN0001"
    sectorName := some "Technology"
    broker := some "B1"
    portfolio := some "P1"
    qty := some "abc"
    valueAtCost := some "1000"
    valueAtMarket := some "1200" }

/-- The selection leaving every dimension at `All` (no filtering). -/
def selAll : FilterSelection := ⟨"All", "All", "All", "All"⟩

/-- A selection filtering on portfolio `P1` only. -/
def selP1 : FilterSelection := ⟨"P1", "All", "All", "All"⟩

/-! ### Sanity checks of the extended-value HPR pipeline -/

example : rowHPR (some 1000) (some 1200) = XVal.num 20 := by
  norm_num [rowHPR, toX, XVal.sub, XVal.div, XVal.mul, XVal.round2, XVal.fillna, roundTo2]
example : rowHPR (some 0) (some 0) = XVal.num 0 := by
  norm_num [rowHPR, toX, XVal.sub, XVal.div, XVal.mul, XVal.round2, XVal.fillna, roundTo2]
example : rowHPR none (some 5) = XVal.num 0 := by
  norm_num [rowHPR, toX, XVal.sub, XVal.div, XVal.mul, XVal.round2, XVal.fillna, roundTo2]
example : rowHPR (some 3) (some 4) = XVal.num (3333/100) := by
  norm_num [rowHPR, toX, XVal.sub, XVal.div, XVal.mul, XVal.round2, XVal.fillna, roundTo2]

/-! ### Helper lemmas -/

/-- The four sequential conditional filters are one filter by the conjunction
of the four dimension predicates. -/
theorem applyFilters_eq_filter (sel : FilterSelection) (df : List EnrichedHolding) :
    applyFilters sel df = df.filter (rowMatches sel) := by
  simp only [applyFilters]
  split_ifs with h1 h2 h3 h4 <;>
  · try simp only [List.filter_filter]
    first
      | (apply List.filter_congr
         intro r hr
         cases hb : (r.broker == some sel.broker) <;>
           cases hs : (r.sectorDisplayName == some sel.sector) <;>
           cases hm : (r.memberName == some sel.member) <;>
           cases hp : (r.portfolio == some sel.portfolio) <;>
           simp_all [rowMatches])
      | (symm
         rw [List.filter_eq_self]
         intro r hr
         simp_all [rowMatches])

/-- Sums over a list distribute over pointwise addition of the summands. -/
theorem sum_map_add (ks : List String) (f g : String → ℚ) :
    (ks.map (fun k => f k + g k)).sum = (ks.map f).sum + (ks.map g).sum := by
  induction ks with
  | nil => simp
  | cons k ks ih => simp [ih]; ring

/-- An indicator summand vanishes over a key list not containing its value. -/
theorem indicator_sum_of_not_mem (ks : List String) (v : String) (c : ℚ)
    (hv : v ∉ ks) :
    (ks.map (fun k => if (some v : Option String) == some k then c else 0)).sum = 0 := by
  induction ks with
  | nil => simp
  | cons k ks ih =>
    simp only [List.map_cons, List.sum_cons]
    rw [if_neg, ih (fun h => hv (List.mem_cons_of_mem _ h)), add_zero]
    simp only [beq_iff_eq, Option.some.injEq]
    exact fun h => hv (h ▸ List.mem_cons_self _ _)

/-- Summing an indicator over a duplicate-free key list picks the value at
most once: the sum is `c` when the optional key is present and in the list,
`0` otherwise. -/
theorem indicator_sum (ks : List String) (hnd : ks.Nodup) (o : Option String) (c : ℚ) :
    (ks.map (fun k => if o == some k then c else 0)).sum
      = match o with
        | none => 0
        | some v => if v ∈ ks then c else 0 := by
  induction ks with
  | nil => cases o <;> simp
  | cons k ks ih =>
    have hk : k ∉ ks := (List.nodup_cons.mp hnd).1
    have htl := ih (List.nodup_cons.mp hnd).2
    cases o with
    | none => simp
    | some v =>
      simp only [List.map_cons, List.sum_cons]
      by_cases hv : v = k
      · subst hv
        rw [if_pos (by simp), indicator_sum_of_not_mem ks v c hk, add_zero]
        simp [List.mem_cons]
      · rw [if_neg (by simp [hv]), htl, zero_add]
        simp [List.mem_cons, hv]

/-- Partition law: summing the cost of each group over a duplicate-free key
list covering every key that occurs equals the cost of all rows whose key is
present. -/
theorem partition_sum (key : EnrichedHolding → Option String)
    (rows : List EnrichedHolding) (ks : List String) (hnd : ks.Nodup)
    (hcov : ∀ r ∈ rows, ∀ v, key r = some v → v ∈ ks) :
    (ks.map (fun k => sumCost (rows.filter (fun r => key r == some k)))).sum
      = sumCost (rows.filter (fun r => (key r).isSome)) := by
  induction rows with
  | nil => simp [sumCost]
  | cons r rows ih =>
    have hsplit : ∀ k, sumCost ((r :: rows).filter (fun x => key x == some k))
        = (if key r == some k then r.valueAtCost.getD 0 else 0)
          + sumCost (rows.filter (fun x => key x == some k)) := by
      intro k
      by_cases h : key r == some k
      · simp [List.filter_cons, h, sumCost]
      · simp [List.filter_cons, h]
    have hmap : (ks.map (fun k => sumCost ((r :: rows).filter (fun x => key x == some k))))
        = ks.map (fun k => (if key r == some k then r.valueAtCost.getD 0 else 0)
            + sumCost (rows.filter (fun x => key x == some k))) :=
      congrArg (fun f => ks.map f) (funext hsplit)
    rw [hmap, sum_map_add, indicator_sum ks hnd (key r) (r.valueAtCost.getD 0),
      ih (fun x hx => hcov x (List.mem_cons_of_mem _ hx))]
    by_cases hkr : (key r).isSome
    · obtain ⟨v, hv⟩ := Option.isSome_iff_exists.mp hkr
      have hvk : v ∈ ks := hcov r (List.mem_cons_self _ _) v hv
      simp [List.filter_cons, hv, hvk, sumCost]
    · have hnone : key r = none := Option.not_isSome_iff_eq_none.mp hkr
      simp [List.filter_cons, hnone, sumCost]

/-- The aggregate table's investments always sum to the cost of exactly
those input rows whose grouping key is non-missing. -/
theorem summary_investment_total (key : EnrichedHolding → Option String)
    (rows : List EnrichedHolding) :
    ((summaryTable key rows).map (fun g => g.investment)).sum
      = sumCost (rows.filter (fun r => (key r).isSome)) := by
  have hmaps : (summaryTable key rows).map (fun g => g.investment)
      = ((rows.filterMap key).dedup).map
          (fun k => sumCost (rows.filter (fun r => key r == some k))) := by
    simp [summaryTable, List.map_map, Function.comp]
  rw [hmaps]
  exact partition_sum key rows _ (List.nodup_dedup _)
    (fun r hr v hv => List.mem_dedup.mpr (List.mem_filterMap.mpr ⟨r, hr, hv⟩))

/-- Over a table whose every entry carries an `en` value (so the scan cannot
raise), a scan finding no matching entry returns the canonical English name
unchanged. -/
theorem get_sector_name_no_match (sm : Mapping) (name lang : String)
    (hwf : ∀ p ∈ sm, (langGet p.2 "en").isSome)
    (hnm : ∀ p ∈ sm, ¬ langGet p.2 "en" = some name) :
    get_sector_name sm name lang = some name := by
  induction sm with
  | nil => rfl
  | cons p rest ih =>
    obtain ⟨e, he⟩ := Option.isSome_iff_exists.mp (hwf p (List.mem_cons_self _ _))
    have hne : e ≠ name := fun h => hnm p (List.mem_cons_self _ _) (h ▸ he)
    simp only [get_sector_name, he]
    rw [if_neg (by simpa using hne)]
    exact ih (fun q hq => hwf q (List.mem_cons_of_mem _ hq))
      (fun q hq => hnm q (List.mem_cons_of_mem _ hq))

/-- Over a table whose every entry carries an `en` value, if the first entry
matching the canonical English name has no value for the requested language,
the scan returns the canonical name unchanged. -/
theorem get_sector_name_first_match (sm : Mapping) (name lang : String)
    (hwf : ∀ p ∈ sm, (langGet p.2 "en").isSome) (q : String × LangMap)
    (hfind : sm.find? (fun p => langGet p.2 "en" == some name) = some q)
    (hlang : langGet q.2 lang = none) :
    get_sector_name sm name lang = some name := by
  induction sm with
  | nil => simp at hfind
  | cons p rest ih =>
    obtain ⟨e, he⟩ := Option.isSome_iff_exists.mp (hwf p (List.mem_cons_self _ _))
    by_cases hmatch : e = name
    · rw [List.find?_cons_of_pos _ (by simp [he, hmatch])] at hfind
      obtain rfl : p = q := by injection hfind
      simp only [get_sector_name, he]
      rw [if_pos (by simp [hmatch]), hlang]
      rfl
    · rw [List.find?_cons_of_neg _ (by simp [he, hmatch])] at hfind
      simp only [get_sector_name, he]
      rw [if_neg (by simpa using hmatch)]
      exact ih (fun q2 hq2 => hwf q2 (List.mem_cons_of_mem _ hq2)) hfind

/-! ### The claims -/

/-- Claim C1.  The claim states that a row with value-at-cost 0 and
value-at-market 500 gets HPR exactly 0.  The code disagrees: pandas division
of the nonzero difference 500 by the zero cost produces +∞ (not NaN), and
`fillna(0)` replaces only NaN, so the row's HPR is +∞ — contradicting the
code's own comment, which says division by zero is handled by setting HPR
to 0 when value-at-cost is 0.  This theorem evaluates the embedded code at
that failing input. -/
theorem row_hpr_zero_cost_is_infinite :
    rowHPR (some 0) (some 500) = XVal.inf true ∧
    rowHPR (some 0) (some 500) ≠ XVal.num 0 := by
  have h : rowHPR (some 0) (some 500) = XVal.inf true := by
    norm_num [rowHPR, toX, XVal.sub, XVal.div, XVal.mul, XVal.round2, XVal.fillna, roundTo2]
  exact ⟨h, by rw [h]; decide⟩

/-- Claim C2.  The claim states that a group whose summed investment is zero
gets group HPR exactly 0.  The code disagrees: for a group with summed
investment 0 and summed current value 500 (here a single zero-cost holding),
the group HPR column evaluates to +∞, because the Series division yields +∞
and `fillna(0)` replaces only NaN — contradicting the code's own
division-by-zero handling comment.  This theorem evaluates the embedded
aggregation at that failing input. -/
theorem group_hpr_zero_investment_is_infinite :
    (summaryTable (fun r => r.broker) [zeroCostRow]).map (fun g => g.hpr)
      = [XVal.inf true] := by
  have hkeys : (([zeroCostRow].filterMap (fun r => r.broker)).dedup) = ["B1"] := rfl
  have hgrp : [zeroCostRow].filter (fun r => r.broker == some "B1") = [zeroCostRow] := rfl
  have hc : sumCost [zeroCostRow] = 0 := by simp [sumCost, zeroCostRow]
  have hm : sumMarket [zeroCostRow] = 500 := by simp [sumMarket, zeroCostRow]
  simp only [summaryTable, hkeys, List.map_cons, List.map_nil, hgrp, hc, hm]
  norm_num [groupHPR, XVal.div, XVal.mul, XVal.round2, XVal.fillna, roundTo2]

/-- Claim C3: for every filtered holdings set, the total-level HPR is exactly
0 when the total investment is zero, and otherwise equals the rounded
percentage of the summed values; the computation is total, so the
division-by-zero case is never raised as an error. -/
theorem total_hpr_zero_guard (rows : List EnrichedHolding) :
    (sumCost rows = 0 → totalHPR rows = 0) ∧
    (sumCost rows ≠ 0 →
      totalHPR rows = roundTo2 ((sumMarket rows - sumCost rows) / sumCost rows * 100)) := by
  constructor <;> intro h <;> simp [totalHPR, h]

/-- Witness for claim C3: on the empty filtered set the total investment is
zero and the total HPR is exactly 0. -/
theorem total_hpr_zero_guard_witness : totalHPR [] = 0 :=
  (total_hpr_zero_guard []).1 rfl

/-- Claim C4 (amended): for every holdings set in which every row has a
non-missing grouping-key value, the per-group investments of the aggregate
table sum to the total investment of the input set.  (Unconditionally, they
sum to the total investment of the rows whose key is non-missing; rows with
a missing key are dropped by the grouping, which is the counterexample to
the original claim.) -/
theorem group_investment_conservation (key : EnrichedHolding → Option String)
    (rows : List EnrichedHolding) (h : ∀ r ∈ rows, (key r).isSome) :
    ((summaryTable key rows).map (fun g => g.investment)).sum = sumCost rows := by
  rw [summary_investment_total]
  congr 1
  exact List.filter_eq_self.mpr h

/-- Witness for claim C4: a one-row table with the broker present conserves
investment under grouping by broker. -/
theorem group_investment_conservation_witness :
    ((summaryTable (fun r => r.broker) [sampleRow]).map (fun g => g.investment)).sum
      = sumCost [sampleRow] :=
  group_investment_conservation (fun r => r.broker) [sampleRow]
    (by intro r hr; rw [List.mem_singleton.mp hr]; rfl)

/-- Counterexample to claim C4 as stated: for the unfiltered one-row set
whose broker cell is missing, the aggregate table is empty, so the sum of
per-group investment is 0 while the total investment of the filtered input
set is 100. -/
theorem group_investment_conservation_cex :
    ¬ (((summaryTable (fun r => r.broker)
          (applyFilters selAll [missingBrokerRow])).map (fun g => g.investment)).sum
        = sumCost (applyFilters selAll [missingBrokerRow])) := by
  have hfil : applyFilters selAll [missingBrokerRow] = [missingBrokerRow] := rfl
  have hkeys : (([missingBrokerRow].filterMap (fun r => r.broker)).dedup)
      = ([] : List String) := rfl
  rw [hfil]
  simp only [summaryTable, hkeys, List.map_nil, List.sum_nil]
  intro h
  have hc : sumCost [missingBrokerRow] = 100 := by
    simp [sumCost, missingBrokerRow]
  rw [hc] at h
  norm_num at h

/-- Claim C5.  The claim states that `highlight_hpr` flags exactly the rows
whose percentage, parsed back from the formatted string, is strictly
negative.  The `src/app.py` version, as invoked on the HPR column, flags
nothing at all — its `isinstance(s, str)` test is false for a column — so a
−5.00% row receives no highlight, contradicting the claim and the code's own
comment about marking negative returns; the canvas version implements the
claimed behaviour, flagging the −5.00% row and not the 0.00% row. -/
theorem highlight_divergence_at_negative :
    highlight_hpr_app ["-5.00%", "0.00%"] = ["", ""] ∧
    highlight_hpr_canvas ["-5.00%", "0.00%"] = ["background-color: #ffe6e6", ""] := by
  constructor
  · rfl
  · have hneg : parseNumeric (removePercent "-5.00%")
        = some (-(((digitsToNat ['5'] 0 : ℕ) : ℚ) + ((digitsToNat ['0', '0'] 0 : ℕ) : ℚ) / (10 ^ 2 : ℚ))) := rfl
    have hzero : parseNumeric (removePercent "0.00%")
        = some ((((digitsToNat ['0'] 0 : ℕ) : ℚ) + ((digitsToNat ['0', '0'] 0 : ℕ) : ℚ) / (10 ^ 2 : ℚ))) := rfl
    have d5 : (digitsToNat ['5'] 0 : ℕ) = 5 := rfl
    have d0 : (digitsToNat ['0', '0'] 0 : ℕ) = 0 := rfl
    have dz : (digitsToNat ['0'] 0 : ℕ) = 0 := rfl
    rw [d5, d0] at hneg
    rw [dz, d0] at hzero
    simp only [highlight_hpr_canvas, List.map_cons, List.map_nil, hneg, hzero]
    norm_num

/-- Claim C6: the filter output contains exactly those input rows for which,
for every dimension whose selection is not `All`, the row's corresponding
field is string-equal to the selected value; the four dimension predicates
compose as logical AND. -/
theorem filter_retains_exactly_matching_rows (sel : FilterSelection)
    (df : List EnrichedHolding) (r : EnrichedHolding) :
    r ∈ applyFilters sel df ↔
      r ∈ df ∧
      ((sel.portfolio ≠ "All" → r.portfolio = some sel.portfolio) ∧
       (sel.member ≠ "All" → r.memberName = some sel.member) ∧
       (sel.sector ≠ "All" → r.sectorDisplayName = some sel.sector) ∧
       (sel.broker ≠ "All" → r.broker = some sel.broker)) := by
  rw [applyFilters_eq_filter, List.mem_filter]
  simp only [rowMatches, Bool.and_eq_true, Bool.or_eq_true, beq_iff_eq]
  constructor
  · rintro ⟨hmem, h1, h2, h3, h4⟩
    exact ⟨hmem, fun hp => h1.resolve_left hp, fun hm => h2.resolve_left hm,
      fun hs => h3.resolve_left hs, fun hb => h4.resolve_left hb⟩
  · rintro ⟨hmem, h1, h2, h3, h4⟩
    refine ⟨hmem, ?_, ?_, ?_, ?_⟩ <;>
      [skip; skip; skip; skip] <;>
      first
        | exact or_iff_not_imp_left.mpr h1
        | exact or_iff_not_imp_left.mpr h2
        | exact or_iff_not_imp_left.mpr h3
        | exact or_iff_not_imp_left.mpr h4

/-- Witness for claim C6: the characterization instantiated at a concrete
selection (portfolio `P1`), table and row. -/
theorem filter_retains_exactly_matching_rows_witness :
    (sampleRow ∈ applyFilters selP1 [sampleRow, missingBrokerRow] ↔
      sampleRow ∈ [sampleRow, missingBrokerRow] ∧
      ((selP1.portfolio ≠ "All" → sampleRow.portfolio = some selP1.portfolio) ∧
       (selP1.member ≠ "All" → sampleRow.memberName = some selP1.member) ∧
       (selP1.sector ≠ "All" → sampleRow.sectorDisplayName = some selP1.sector) ∧
       (selP1.broker ≠ "All" → sampleRow.broker = some selP1.broker))) :=
  filter_retains_exactly_matching_rows selP1 [sampleRow, missingBrokerRow] sampleRow

/-- Claim C7: filtering is idempotent — applying the same selection twice
yields exactly the result of applying it once. -/
theorem filter_idempotent (sel : FilterSelection) (df : List EnrichedHolding) :
    applyFilters sel (applyFilters sel df) = applyFilters sel df := by
  simp only [applyFilters_eq_filter, List.filter_filter, Bool.and_self]

/-- Claim C8: every localization lookup falls back to its input code (or, for
the sector lookup, the canonical English name) whenever the table has no
entry for the code or the matching entry has no value for the language — in
particular over the empty table.  The sector conjuncts carry the hypothesis
that every entry of the sector table has an `en` value: the source indexes
each scanned entry directly at `en` and raises `KeyError` otherwise, so the
fallback contract only holds on tables the program can scan at all (the
empty-table conjunct needs no such hypothesis). -/
theorem localization_fallback (mm km sm : Mapping) (code name lang : String) :
    (dictGet mm code = none → get_member_name mm code lang = code) ∧
    (∀ e, dictGet mm code = some e → langGet e lang = none →
      get_member_name mm code lang = code) ∧
    (dictGet km code = none → get_stock_name km code lang = code) ∧
    (∀ e, dictGet km code = some e → langGet e lang = none →
      get_stock_name km code lang = code) ∧
    ((∀ p ∈ sm, (langGet p.2 "en").isSome) →
      (sm.find? (fun p => langGet p.2 "en" == some name) = none →
        get_sector_name sm name lang = some name) ∧
      (∀ p, sm.find? (fun p => langGet p.2 "en" == some name) = some p →
        langGet p.2 lang = none → get_sector_name sm name lang = some name)) ∧
    get_member_name [] code lang = code ∧
    get_stock_name [] code lang = code ∧
    get_sector_name [] name lang = some name := by
  refine ⟨?_, ?_, ?_, ?_, ?_, ?_, ?_, ?_⟩
  · intro h; simp [get_member_name, h, langGet]
  · intro e he hl; simp [get_member_name, he, hl]
  · intro h; simp [get_stock_name, h, langGet]
  · intro e he hl; simp [get_stock_name, he, hl]
  · intro hwf
    constructor
    · intro hfind
      rw [List.find?_eq_none] at hfind
      exact get_sector_name_no_match sm name lang hwf
        (fun q hq hsome => hfind q hq (by simp [hsome]))
    · intro p hp hl
      exact get_sector_name_first_match sm name lang hwf p hp hl
  · simp [get_member_name, dictGet, langGet]
  · simp [get_stock_name, dictGet, langGet]
  · rfl

/-- Witness for claim C8: a member code absent from a one-entry table, an
ISIN whose entry lacks the requested language, a sector name matching no
entry of a well-formed one-entry table, a sector whose matching entry lacks
the requested language, and a sector lookup over the empty table all fall
back to their inputs. -/
theorem localization_fallback_witness :
    get_member_name [("M001", [("en", "Alice")])] "M999" "ta" = "M999" ∧
    get_stock_name [("IN0001", [("en", "Stock1")])] "IN0001" "ta" = "IN0001" ∧
    get_sector_name [("SEC1", [("en", "Technology")])] "Pharma" "ta" = some "Pharma" ∧
    get_sector_name [("SEC1", [("en", "Technology")])] "Technology" "ta" = some "Technology" ∧
    get_sector_name [] "Technology" "ta" = some "Technology" := by
  refine ⟨?_, ?_, ?_, ?_, ?_⟩
  · exact (localization_fallback [("M001", [("en", "Alice")])] [("IN0001", [("en", "Stock1")])]
      [("SEC1", [("en", "Technology")])] "M999" "Technology" "ta").1 (by decide)
  · exact (localization_fallback [("M001", [("en", "Alice")])] [("IN0001", [("en", "Stock1")])]
      [("SEC1", [("en", "Technology")])] "IN0001" "Technology" "ta").2.2.2.1
      [("en", "Stock1")] (by decide) (by decide)
  · exact ((localization_fallback [("M001", [("en", "Alice")])] [("IN0001", [("en", "Stock1")])]
      [("SEC1", [("en", "Technology")])] "M999" "Pharma" "ta").2.2.2.2.1
      (by decide)).1 (by decide)
  · exact ((localization_fallback [("M001", [("en", "Alice")])] [("IN0001", [("en", "Stock1")])]
      [("SEC1", [("en", "Technology")])] "M999" "Technology" "ta").2.2.2.2.1
      (by decide)).2 ("SEC1", [("en", "Technology")]) (by decide) (by decide)
  · exact (localization_fallback [("M001", [("en", "Alice")])] [("IN0001", [("en", "Stock1")])]
      [] "M999" "Technology" "ta").2.2.2.2.2.2.2

/-- Claim C9: normalization keeps every row (same length, and each cleaned
row is in the output), and for each of the three numeric columns a cell that
fails to parse becomes missing; the cleaning function is total, so a
malformed cell never aborts the row, the load, or raises. -/
theorem numeric_coercion_preserves_rows (rows : List RawRow) :
    (cleanRows rows).length = rows.length ∧
    ∀ r ∈ rows,
      cleanRow r ∈ cleanRows rows ∧
      (∀ s, r.qty = some s → parseNumeric s = none → (cleanRow r).qty = none) ∧
      (∀ s, r.valueAtCost = some s → parseNumeric s = none →
        (cleanRow r).valueAtCost = none) ∧
      (∀ s, r.valueAtMarket = some s → parseNumeric s = none →
        (cleanRow r).valueAtMarket = none) := by
  refine ⟨by simp [cleanRows], ?_⟩
  intro r hr
  refine ⟨List.mem_map_of_mem cleanRow hr, ?_, ?_, ?_⟩ <;>
    · intro s hs hp
      simp [cleanRow, to_numeric_coerce, hs, hp]

/-- Witness for claim C9: a row whose quantity cell is the malformed text
`abc` is retained by the load and gets a missing quantity. -/
theorem numeric_coercion_preserves_rows_witness :
    (cleanRows [malformedRow]).length = [malformedRow].length ∧
    (cleanRow malformedRow).qty = none :=
  ⟨(numeric_coercion_preserves_rows [malformedRow]).1,
   (((numeric_coercion_preserves_rows [malformedRow]).2 malformedRow
       (List.mem_cons_self _ _)).2.1 "abc" rfl (by decide))⟩

/-- Claim C10: the aggregate table's keys are exactly the distinct
non-missing values of the grouping dimension in the input (as a set, and
without duplicates), and each group's sums range over exactly the rows whose
key equals that group's key — so a row with a missing key contributes to no
group. -/
theorem groupby_drops_missing_keys (key : EnrichedHolding → Option String)
    (rows : List EnrichedHolding) :
    (∀ k, (∃ g ∈ summaryTable key rows, g.key = k) ↔ some k ∈ rows.map key) ∧
    ((summaryTable key rows).map (fun g => g.key)).Nodup ∧
    (∀ g ∈ summaryTable key rows,
      g.investment = sumCost (rows.filter (fun r => key r == some g.key)) ∧
      g.currentValue = sumMarket (rows.filter (fun r => key r == some g.key))) := by
  refine ⟨?_, ?_, ?_⟩
  · intro k
    simp only [summaryTable, List.mem_map, List.mem_dedup, List.mem_filterMap]
    constructor
    · rintro ⟨g, ⟨k2, ⟨r, hr, hk2⟩, rfl⟩, rfl⟩
      exact ⟨r, hr, hk2⟩
    · rintro ⟨r, hr, hk⟩
      exact ⟨_, ⟨k, ⟨r, hr, hk⟩, rfl⟩, rfl⟩
  · have : (summaryTable key rows).map (fun g => g.key) = (rows.filterMap key).dedup := by
      rw [summaryTable, List.map_map]
      exact List.map_id _
    rw [this]
    exact List.nodup_dedup _
  · intro g hg
    simp only [summaryTable, List.mem_map] at hg
    obtain ⟨k, _, rfl⟩ := hg
    exact ⟨rfl, rfl⟩

/-- Witness for claim C10: instantiated at a two-row table, one row with a
broker and one with a missing broker, grouped by broker. -/
theorem groupby_drops_missing_keys_witness :
    ((∃ g ∈ summaryTable (fun r => r.broker) [sampleRow, missingBrokerRow], g.key = "B1") ↔
      some "B1" ∈ [sampleRow, missingBrokerRow].map (fun r => r.broker)) :=
  (groupby_drops_missing_keys (fun r => r.broker) [sampleRow, missingBrokerRow]).1 "B1"
